import Mathlib

/-!
# cpm::Instance (src/src/cpm.hpp): the consumer/producer batching dispatcher

A shallow embedding of the class template `cpm::Instance<Result, Input, Model>`.

* `R`, `I`, `M` stand for the template parameters `Result`, `Input`, `Model`;
  `Result()` is `default` of `Inhabited R`.
* Every `std::promise<Result>` lives in a heap (`Instance.promises`); a
  `std::shared_ptr<std::promise<Result>>` is `Option Nat` (`none` is the null pointer) and
  the `std::shared_future` handed back to a caller is the index of its promise.
* `Model::forwards` is a function `M → List I → Stream → List R × M` (the model may carry
  state from one call to the next); every call is recorded in the ghost field `calls`.
* The worker thread is the field `worker_`; its program counter is one of the three points
  at which other threads can observe it (`WorkerThread`).
* Sequences are lists of any length. The conversions `(int)inputs.size()` (line 69) and
  `(int)ret.size()` (line 115) are `toInt32` of the length, which wraps from 2^31 on. The
  conversion `(int)fetch_items.size()` (line 114) is exact, because the loop of line 135
  stops below `max_size`, an `int`; the `int` indices stay below these bounds and do not
  overflow. `max_items_processed_` is a signed `int` and is kept as `Int`.
* Threads interleave at the granularity of the critical sections of `queue_lock_`: a
  `commit`, a `commits`, the fetch of `get_items_and_wait` and the drain of `stop` are
  one step each, and so is the delivery of a batch, whose promises only the worker holds.
  Between the drain of `stop` and the return of its join the lock is free: `AfterDrain`
  lists what other threads and the worker can do there. `stop` and `start` as functions
  are the runs in which nothing is submitted in that window; they run the worker to its
  exit inside `join`, for at most `fuel` worker moves, and the theorems about them hold
  for every fuel from 2 on. Lost wake-ups and other timing effects of the condition
  variable are outside the model.
-/

namespace cpm

/-- Opaque `void *stream`; `0` is `nullptr`. -/
abbrev Stream := Nat

/-- The conversion `(int)n` of a `size_t` value `n` to a 32-bit `int`: the value congruent
to `n` modulo 2^32 between -2^31 and 2^31 - 1 (the conversion C++20 defines, and the one
compilers performed before). It is `n` itself for `n < 2^31`. -/
def toInt32 (n : Nat) : Int :=
  (((n + 2147483648) % 4294967296 : Nat) : Int) - 2147483648

/-- Shared state of one `std::promise<Result>`: the stored value, if any, and how many
times `set_value` has been called on it (ghost counter). -/
structure Promise (R : Type) where
  value : Option R
  sets : Nat
deriving DecidableEq

/-- The call `promise::set_value(r)`: stores `r` when the shared state is still empty. A
call on a satisfied promise throws `future_error` and keeps the stored value; the model
counts the call, so `sets ≤ 1` says that the throwing path was never taken. -/
def Promise.set_value {R : Type} (c : Promise R) (r : R) : Promise R :=
  match c.value with
  | none => { value := some r, sets := c.sets + 1 }
  | some v => { value := some v, sets := c.sets + 1 }

/-- A freshly constructed promise, `new std::promise<Result>()`. -/
def Promise.fresh {R : Type} : Promise R := { value := none, sets := 0 }

/-- Calls `set_value r` through pointer `p` into the promise heap. -/
def setPromise {R : Type} (h : List (Promise R)) (p : Nat) (r : R) : List (Promise R) :=
  match h[p]? with
  | some c => h.set p (c.set_value r)
  | none => h

/-- The struct `Item`: the input and the shared pointer to its promise. -/
structure Item (I : Type) where
  input : I
  pro : Option Nat
deriving DecidableEq

/-- Where the worker thread stands when another thread looks at it. -/
inductive WorkerThread (M I : Type) where
  /-- At the head of `while (get_items_and_wait(...))`, `fetch_items` empty. -/
  | loop (model : M)
  /-- After `get_items_and_wait` returned true, before the loop body (lines 109 to 122). -/
  | inflight (model : M) (fetch_items : List (Item I))
  /-- The thread function has returned; the thread is joinable. -/
  | exited
deriving DecidableEq

/-- The data members of `cpm::Instance`, the promise heap, and the ghost log of the calls
of `Model::forwards` (inputs and returned results, in call order). -/
structure Instance (R I M : Type) where
  input_queue_ : List (Item I)
  worker_ : Option (WorkerThread M I)
  run_ : Bool
  max_items_processed_ : Int
  stream_ : Stream
  promises : List (Promise R)
  calls : List (List I × List R)
deriving DecidableEq

/-- A default-initialised `Instance` object: the member initialisers of lines 24 to 30. -/
def Instance.init {R I M : Type} : Instance R I M :=
  { input_queue_ := [], worker_ := none, run_ := false, max_items_processed_ := 0,
    stream_ := 0, promises := [], calls := [] }

section ops

variable {R I M : Type} [Inhabited R]

/-- Lines 53 to 63, `commit`: a new item with a fresh promise is pushed at the back of the
queue; the future of that promise is returned. -/
def commit (s : Instance R I M) (input : I) : Nat × Instance R I M :=
  let p := s.promises.length
  let item : Item I := { input := input, pro := some p }
  (p, { s with promises := s.promises ++ [Promise.fresh],
               input_queue_ := s.input_queue_ ++ [item] })

/-- The loop of `commits` (lines 69 to 75) at index `i`, with `bound` the value of
`(int)inputs.size()` and the list holding `inputs[i], inputs[i+1], ...`: while `i < bound`,
one fresh promise, one `emplace_back` of its future on `output` and one `push` of the
item on the queue. (The bound never exceeds the number of inputs, so the exhausted list
is the loop exit.) -/
def commitsLoop (bound : Int) : Nat → List I → List Nat → Instance R I M →
    List Nat × Instance R I M
  | _, [], output, s => (output, s)
  | i, x :: rest, output, s =>
    if (i : Int) < bound then
      let p := s.promises.length
      let item : Item I := { input := x, pro := some p }
      commitsLoop bound (i + 1) rest (output ++ [p])
        { s with promises := s.promises ++ [Promise.fresh],
                 input_queue_ := s.input_queue_ ++ [item] }
    else (output, s)

/-- Lines 65 to 79, `commits`. -/
def commits (s : Instance R I M) (inputs : List I) : List Nat × Instance R I M :=
  commitsLoop (toInt32 inputs.length) 0 inputs [] s

/-- The drain loop of `stop` (lines 40 to 44): while the queue is not empty, resolve the
front item with `Result()` when its `pro` is not null, and pop it. Returns the queue and
the heap at loop exit. -/
def drainLoop : List (Item I) → List (Promise R) → List (Item I) × List (Promise R)
  | [], h => ([], h)
  | item :: q, h =>
    match item.pro with
    | some p => drainLoop q (setPromise h p default)
    | none => drainLoop q h

/-- Lines 36 to 45 of `stop`: clear `run_`, then drain the queue under the lock. -/
def stopDrain (s : Instance R I M) : Instance R I M :=
  let d := drainLoop s.input_queue_ s.promises
  { s with run_ := false, input_queue_ := d.1, promises := d.2 }

/-- The fetch loop of `get_items_and_wait` (lines 135 to 138) at index `i`:
`for (; i < max_size && !input_queue_.empty(); ++i)` moves the front item to the back of
`fetch_items`. Returns `fetch_items` and the queue at loop exit. -/
def fetchLoop (max_size : Int) : Nat → List (Item I) → List (Item I) →
    List (Item I) × List (Item I)
  | _, [], fetch_items => (fetch_items, [])
  | i, item :: q, fetch_items =>
    if (i : Int) < max_size then fetchLoop max_size (i + 1) q (fetch_items ++ [item])
    else (fetch_items, item :: q)

/-- Lines 128 to 140, `get_items_and_wait`. `none`: the condition wait does not return
(the instance is running and the queue is empty). Otherwise the returned flag, the
contents of `fetch_items` and the instance afterwards. -/
def get_items_and_wait (s : Instance R I M) (fetch_items : List (Item I)) (max_size : Int) :
    Option (Bool × List (Item I) × Instance R I M) :=
  if s.run_ && s.input_queue_.isEmpty then none
  else if !s.run_ then some (false, fetch_items, s)
  else
    let r := fetchLoop max_size 0 s.input_queue_ []
    some (true, r.1, { s with input_queue_ := r.2 })

/-- The delivery loop of `worker` (lines 114 to 120) at index `i`: the item at position `i`
gets `ret[i]` when `i < (int)ret.size()` and `Result()` otherwise (`ret[i]` exists in the
first case, the converted size never exceeding the size). The loop runs over the whole
batch: the batch has at most `max_size` items, so `(int)fetch_items.size()` is its
length. (`pro` is dereferenced unchecked in the source; the model leaves the heap alone
for a null `pro`.) -/
def deliverLoop (ret : List R) : Nat → List (Item I) → List (Promise R) → List (Promise R)
  | _, [], h => h
  | i, item :: rest, h =>
    let r : R := if (i : Int) < toInt32 ret.length then ret.getD i default else default
    match item.pro with
    | some p => deliverLoop ret (i + 1) rest (setPromise h p r)
    | none => deliverLoop ret (i + 1) rest h

/-- The loop body of `worker` (lines 109 to 122) on the fetched items: project the inputs,
call `forwards` with `stream_`, deliver. Returns the model afterwards with the instance. -/
def workerBody (fwd : M → List I → Stream → List R × M) (s : Instance R I M) (model : M)
    (fetch_items : List (Item I)) : M × Instance R I M :=
  let inputs := fetch_items.map Item.input
  let out := fwd model inputs s.stream_
  (out.2, { s with promises := deliverLoop out.1 0 fetch_items s.promises,
                   calls := s.calls ++ [(inputs, out.1)] })

/-- One move of the worker thread. At the loop head it calls `get_items_and_wait` with
`max_items_processed_`: blocked (`none`), or false (the loop ends, lines 124 and 125), or
true with a batch. With a batch in flight it runs the loop body and is back at the head. -/
def workerStep (fwd : M → List I → Stream → List R × M) (s : Instance R I M) :
    Option (Instance R I M) :=
  match s.worker_ with
  | some (.loop model) =>
    match get_items_and_wait s [] s.max_items_processed_ with
    | none => none
    | some (false, _, s1) => some { s1 with worker_ := some .exited, run_ := false }
    | some (true, items, s1) => some { s1 with worker_ := some (.inflight model items) }
  | some (.inflight model items) =>
    let b := workerBody fwd s model items
    some { b.2 with worker_ := some (.loop b.1) }
  | _ => none

/-- Lines 97 to 104, the worker thread from its entry to `status.set_value`: the flag
reported to `start` and the instance, with the thread at the loop head or returned. -/
def workerEntry (loadmethod : Unit → Option M) (s : Instance R I M) : Bool × Instance R I M :=
  match loadmethod () with
  | none => (false, { s with worker_ := some .exited })
  | some model => (true, { s with run_ := true, worker_ := some (.loop model) })

/-- Whether the worker thread function has returned (or there is no thread). -/
def hasReturned (s : Instance R I M) : Bool :=
  match s.worker_ with
  | some (.loop _) => false
  | some (.inflight _ _) => false
  | some .exited => true
  | none => true

/-- The call `worker_->join()`: the worker thread runs on its own until its function has
returned. `none`: it has not returned within `fuel` moves, or it is blocked in the wait. -/
def join (fwd : M → List I → Stream → List R × M) : Nat → Instance R I M →
    Option (Instance R I M)
  | 0, s => if hasReturned s then some s else none
  | fuel + 1, s =>
    if hasReturned s then some s
    else
      match workerStep fwd s with
      | none => none
      | some s1 => join fwd fuel s1

/-- Lines 35 to 51, `stop`: clear `run_` and drain, then join and reset `worker_` when it
is not null. -/
def stop (fwd : M → List I → Stream → List R × M) (fuel : Nat) (s : Instance R I M) :
    Option (Instance R I M) :=
  let s1 := stopDrain s
  match s1.worker_ with
  | none => some s1
  | some _ =>
    match join fwd fuel s1 with
    | none => none
    | some s2 => some { s2 with worker_ := none }

/-- Lines 81 to 91, `start`: `stop()`, store `stream` and `max_items_processed`, create
the worker thread and wait for its status. -/
def start (fwd : M → List I → Stream → List R × M) (fuel : Nat)
    (loadmethod : Unit → Option M) (max_items_processed : Int) (stream : Stream)
    (s : Instance R I M) : Option (Bool × Instance R I M) :=
  match stop fwd fuel s with
  | none => none
  | some s1 =>
    some (workerEntry loadmethod
      { s1 with stream_ := stream, max_items_processed_ := max_items_processed })

/-- The batch the worker holds between its fetch and its delivery. -/
def inflightItems (s : Instance R I M) : List (Item I) :=
  match s.worker_ with
  | some (.inflight _ items) => items
  | _ => []

/-- The items that have been issued and not yet delivered: queued, then in flight. -/
def pending (s : Instance R I M) : List (Item I) :=
  s.input_queue_ ++ inflightItems s

/-- The items carry pairwise distinct, non-null promises, none of which has been set in
heap `h`. -/
def Unresolved (h : List (Promise R)) (items : List (Item I)) : Prop :=
  (items.map Item.pro).Nodup ∧
    ∀ it ∈ items, ∃ p, it.pro = some p ∧ h[p]? = some Promise.fresh

/-- Write-once resolution on a heap `h` with `pend` the items not yet delivered: these
carry pairwise distinct, non-null, unresolved promises, and every other promise of the
heap holds a value and has been set exactly once. -/
def WriteOnceOn (h : List (Promise R)) (pend : List (Item I)) : Prop :=
  Unresolved h pend ∧
    ∀ (p : Nat) (c : Promise R), h[p]? = some c → some p ∉ pend.map Item.pro →
      ∃ v : R, c = { value := some v, sets := 1 }

/-- Write-once resolution of an instance: every promise issued so far belongs to exactly
one queued or in-flight item and is unresolved, or has been resolved by exactly one call
of `set_value`. -/
def WriteOnce (s : Instance R I M) : Prop :=
  WriteOnceOn s.promises (pending s)

/-- The states the dispatcher reaches from a default-initialised object by `commit`,
`commits`, `start`, moves of the worker thread (fetch, delivery, loop exit), the first
half of `stop` (flag and drain), its second half (join and reset), and `stop` as a whole. -/
inductive Reachable (fwd : M → List I → Stream → List R × M) : Instance R I M → Prop where
  | init : Reachable fwd Instance.init
  | by_commit (s : Instance R I M) (x : I) : Reachable fwd s → Reachable fwd (commit s x).2
  | by_commits (s : Instance R I M) (xs : List I) :
      Reachable fwd s → Reachable fwd (commits s xs).2
  | by_start (s : Instance R I M) (fuel : Nat) (loadmethod : Unit → Option M) (m : Int)
      (stream : Stream) (b : Bool) (s1 : Instance R I M) :
      Reachable fwd s → start fwd fuel loadmethod m stream s = some (b, s1) →
      Reachable fwd s1
  | by_worker (s s1 : Instance R I M) :
      Reachable fwd s → workerStep fwd s = some s1 → Reachable fwd s1
  | by_drain (s : Instance R I M) : Reachable fwd s → Reachable fwd (stopDrain s)
  | by_join (s : Instance R I M) :
      Reachable fwd s → s.worker_ = some .exited → Reachable fwd { s with worker_ := none }
  | by_stop (s : Instance R I M) (fuel : Nat) (s1 : Instance R I M) :
      Reachable fwd s → stop fwd fuel s = some s1 → Reachable fwd s1

/-- The result delivered at position `i` for the returned sequence `ret` (lines 115 to
119): `ret[i]` when `i < (int)ret.size()`, `Result()` otherwise. -/
def delivered (ret : List R) (i : Nat) : R :=
  if (i : Int) < toInt32 ret.length then ret.getD i default else default

end ops

/-! ## Example instances

`Result = Input = Nat`; the model is a counter. -/

/-- A model that numbers the inputs it is given: a batch of `k` inputs at counter `c`
returns `c, c+1, ..., c+k-1` and leaves the counter at `c+k`. -/
def counterForwards : Nat → List Nat → Stream → List Nat × Nat :=
  fun c inputs _ => (List.range' c inputs.length, c + inputs.length)

/-- A model that returns a result for the first input only. -/
def shortForwards : Nat → List Nat → Stream → List Nat × Nat :=
  fun c inputs _ => ((inputs.take 1).map (fun x => x + 100), c)

/-- A model that returns 2^31 results, all 5, whatever it is given. -/
def hugeForwards : Nat → List Nat → Stream → List Nat × Nat :=
  fun c _ _ => (List.replicate (2 ^ 31) 5, c)

/-- A loader that succeeds with the counter at 0. -/
def loadCounter : Unit → Option Nat := fun _ => some 0

/-- A loader that fails: it returns the null pointer. -/
def loadNothing : Unit → Option Nat := fun _ => none

/-- A worker holding a batch of two items in flight, nothing queued. -/
def exInflight : Instance Nat Nat Nat :=
  { input_queue_ := [], worker_ := some (.inflight 0 [⟨10, some 0⟩, ⟨11, some 1⟩]),
    run_ := true, max_items_processed_ := 2, stream_ := 0,
    promises := [Promise.fresh, Promise.fresh], calls := [] }

/-- A worker holding a batch of one item in flight, nothing queued. -/
def exInflightOne : Instance Nat Nat Nat :=
  { input_queue_ := [], worker_ := some (.inflight 0 [⟨10, some 0⟩]),
    run_ := true, max_items_processed_ := 1, stream_ := 0,
    promises := [Promise.fresh], calls := [] }

/-- A running instance, batch size 4, with three items queued and the worker at the loop
head. -/
def exRunning : Instance Nat Nat Nat :=
  { input_queue_ := [⟨10, some 0⟩, ⟨11, some 1⟩, ⟨12, some 2⟩], worker_ := some (.loop 0),
    run_ := true, max_items_processed_ := 4, stream_ := 0,
    promises := [Promise.fresh, Promise.fresh, Promise.fresh], calls := [] }

/-- The instance after `start(loadCounter, 4)` on a new object. -/
def exStarted : Instance Nat Nat Nat :=
  { input_queue_ := [], worker_ := some (.loop 0), run_ := true, max_items_processed_ := 4,
    stream_ := 0, promises := [], calls := [] }

/-- The instance `exStarted` after the first half of `stop()` and then a `commit(7)` from
another thread: the flag is cleared, the worker has not yet woken, one item is queued. -/
def exStopping : Instance Nat Nat Nat :=
  { input_queue_ := [⟨7, some 0⟩], worker_ := some (.loop 0), run_ := false,
    max_items_processed_ := 4, stream_ := 0, promises := [Promise.fresh], calls := [] }

section lemmas

variable {R I M : Type}

theorem toInt32_of_lt (n : Nat) (h : n < 2 ^ 31) : toInt32 n = (n : Int) := by
  unfold toInt32
  norm_num at h ⊢
  omega

theorem toInt32_le (n : Nat) : toInt32 n ≤ (n : Int) := by
  unfold toInt32
  norm_num
  omega

theorem toInt32_two_pow_31 : toInt32 (2 ^ 31) = -(2 ^ 31) := by
  unfold toInt32
  norm_num

theorem delivered_nil [Inhabited R] (i : Nat) : delivered ([] : List R) i = default := by
  simp [delivered]

theorem delivered_of_lt [Inhabited R] (ret : List R) (i : Nat) (h : ret.length < 2 ^ 31) :
    delivered ret i = if hi : i < ret.length then ret.get ⟨i, hi⟩ else default := by
  unfold delivered
  rw [toInt32_of_lt _ h]
  by_cases hi : i < ret.length
  · rw [if_pos (by exact_mod_cast hi), dif_pos hi, List.getD_eq_getElem _ _ hi]
    rfl
  · rw [if_neg (by exact_mod_cast hi), dif_neg hi]

theorem setPromise_length (h : List (Promise R)) (p : Nat) (r : R) :
    (setPromise h p r).length = h.length := by
  unfold setPromise
  split <;> simp

theorem setPromise_get_self (h : List (Promise R)) (p : Nat) (r : R) (c : Promise R)
    (hc : h[p]? = some c) : (setPromise h p r)[p]? = some (c.set_value r) := by
  have hlt : p < h.length := by
    rcases Nat.lt_or_ge p h.length with hl | hl
    · exact hl
    · rw [List.getElem?_eq_none hl] at hc; cases hc
  unfold setPromise
  rw [hc]
  simp [List.getElem?_set, hlt]

theorem setPromise_get_ne (h : List (Promise R)) (p q : Nat) (r : R) (hq : q ≠ p) :
    (setPromise h p r)[q]? = h[q]? := by
  unfold setPromise
  split
  · rw [List.getElem?_set_ne (Ne.symm hq)]
  · rfl

theorem set_value_fresh (r : R) :
    (Promise.fresh : Promise R).set_value r = { value := some r, sets := 1 } := rfl

theorem fetchLoop_eq (max_size : Int) (q : List (Item I)) :
    ∀ (i : Nat) (f : List (Item I)),
      fetchLoop max_size i q f
        = (f ++ q.take (max_size - i).toNat, q.drop (max_size - i).toNat) := by
  induction q with
  | nil => intro i f; simp [fetchLoop]
  | cons item q ih =>
    intro i f
    unfold fetchLoop
    by_cases hlt : (i : Int) < max_size
    · rw [if_pos hlt, ih]
      have h1 : (max_size - (i : Int)).toNat = (max_size - ((i + 1 : Nat) : Int)).toNat + 1 := by
        omega
      rw [h1]
      simp
    · rw [if_neg hlt]
      have h0 : (max_size - (i : Int)).toNat = 0 := by omega
      rw [h0]
      simp

theorem unresolved_tail (h : List (Promise R)) (item : Item I) (rest : List (Item I))
    (p : Nat) (r : R) (hp : item.pro = some p) (hu : Unresolved h (item :: rest)) :
    Unresolved (setPromise h p r) rest ∧ some p ∉ rest.map Item.pro := by
  obtain ⟨hnd, hfr⟩ := hu
  rw [List.map_cons, List.nodup_cons] at hnd
  have hnot : some p ∉ rest.map Item.pro := by rw [← hp]; exact hnd.1
  refine ⟨⟨hnd.2, ?_⟩, hnot⟩
  intro it hit
  obtain ⟨q, hq, hfq⟩ := hfr it (List.mem_cons_of_mem _ hit)
  refine ⟨q, hq, ?_⟩
  have hne : q ≠ p := by
    intro he
    apply hnot
    rw [← he, ← hq]
    exact List.mem_map_of_mem _ hit
  rw [setPromise_get_ne h p q r hne]
  exact hfq

theorem deliverLoop_spec [Inhabited R] (ret : List R) (items : List (Item I)) :
    ∀ (i : Nat) (h : List (Promise R)), Unresolved h items →
      (deliverLoop ret i items h).length = h.length ∧
      (∀ (j : Nat) (hj : j < items.length), ∃ p, (items.get ⟨j, hj⟩).pro = some p ∧
        (deliverLoop ret i items h)[p]?
          = some { value := some (delivered ret (i + j)), sets := 1 }) ∧
      (∀ p : Nat, some p ∉ items.map Item.pro → (deliverLoop ret i items h)[p]? = h[p]?) := by
  induction items with
  | nil =>
    intro i h _
    refine ⟨rfl, ?_, ?_⟩
    · intro j hj; cases hj
    · intro p _; rfl
  | cons item rest ih =>
    intro i h hu
    obtain ⟨p0, hp0, hf0⟩ := hu.2 item (List.mem_cons_self _ _)
    obtain ⟨hu1, hnot⟩ := unresolved_tail h item rest p0 (delivered ret i) hp0 hu
    obtain ⟨hlen, hres, hoth⟩ := ih (i + 1) (setPromise h p0 (delivered ret i)) hu1
    have hstep : deliverLoop ret i (item :: rest) h
        = deliverLoop ret (i + 1) rest (setPromise h p0 (delivered ret i)) := by
      simp only [deliverLoop, hp0, delivered]
    rw [hstep]
    refine ⟨by rw [hlen, setPromise_length], ?_, ?_⟩
    · intro j hj
      cases j with
      | zero =>
        refine ⟨p0, hp0, ?_⟩
        rw [hoth p0 hnot, setPromise_get_self h p0 _ _ hf0, set_value_fresh]
        rfl
      | succ j =>
        have hj1 : j < rest.length := by simpa using hj
        obtain ⟨p, hp, hv⟩ := hres j hj1
        refine ⟨p, by simpa using hp, ?_⟩
        rw [hv]
        have : i + 1 + j = i + (j + 1) := by omega
        rw [this]
    · intro p hp
      have hp1 : some p ∉ rest.map Item.pro := fun hm => hp (by
        rw [List.map_cons]; exact List.mem_cons_of_mem _ hm)
      have hne : p ≠ p0 := by
        intro he
        apply hp
        rw [List.map_cons, he, ← hp0]
        exact List.mem_cons_self _ _
      rw [hoth p hp1, setPromise_get_ne h p0 p _ hne]

theorem drainLoop_queue [Inhabited R] (q : List (Item I)) :
    ∀ h : List (Promise R), (drainLoop q h).1 = [] := by
  induction q with
  | nil => intro h; rfl
  | cons item q ih =>
    intro h
    unfold drainLoop
    split <;> exact ih _

theorem drainLoop_heap [Inhabited R] (q : List (Item I)) :
    ∀ (i : Nat) (h : List (Promise R)), (drainLoop q h).2 = deliverLoop [] i q h := by
  induction q with
  | nil => intro i h; rfl
  | cons item q ih =>
    intro i h
    have hd : (if (i : Int) < toInt32 ([] : List R).length
        then ([] : List R).getD i default else default) = default := delivered_nil i
    cases hpro : item.pro with
    | none => simp only [drainLoop, deliverLoop, hpro]; exact ih (i + 1) h
    | some p => simp only [drainLoop, deliverLoop, hpro]; rw [hd]; exact ih (i + 1) _

theorem unresolved_perm (h : List (Promise R)) (a b : List (Item I)) (hp : a.Perm b)
    (hu : Unresolved h a) : Unresolved h b :=
  ⟨((hp.map Item.pro).nodup_iff).mp hu.1, fun it hit => hu.2 it (hp.mem_iff.mpr hit)⟩

theorem writeOnceOn_perm (h : List (Promise R)) (a b : List (Item I)) (hp : a.Perm b)
    (hw : WriteOnceOn h a) : WriteOnceOn h b :=
  ⟨unresolved_perm h a b hp hw.1, fun p c hc hn =>
    hw.2 p c hc (fun hm => hn (((hp.map Item.pro).mem_iff).mp hm))⟩

theorem pro_lt_of_unresolved (h : List (Promise R)) (a : List (Item I))
    (hu : Unresolved h a) (p : Nat) (hm : some p ∈ a.map Item.pro) : p < h.length := by
  obtain ⟨it, hit, hpro⟩ := List.mem_map.mp hm
  obtain ⟨q, hq, hf⟩ := hu.2 it hit
  have hqp : q = p := by rw [hq] at hpro; exact Option.some.inj hpro
  subst hqp
  rcases Nat.lt_or_ge q h.length with hl | hl
  · exact hl
  · rw [List.getElem?_eq_none hl] at hf; cases hf

theorem writeOnceOn_resolve [Inhabited R] (ret : List R) (i : Nat) (h : List (Promise R))
    (a b : List (Item I)) (hw : WriteOnceOn h (a ++ b)) :
    WriteOnceOn (deliverLoop ret i a h) b := by
  obtain ⟨⟨hnd, hfr⟩, hoth⟩ := hw
  rw [List.map_append, List.nodup_append] at hnd
  obtain ⟨hna, hnb, hdis⟩ := hnd
  have hua : Unresolved h a := ⟨hna, fun it hit => hfr it (List.mem_append_left _ hit)⟩
  obtain ⟨_, hres, hsame⟩ := deliverLoop_spec ret a i h hua
  refine ⟨⟨hnb, ?_⟩, ?_⟩
  · intro it hit
    obtain ⟨p, hp, hf⟩ := hfr it (List.mem_append_right _ hit)
    refine ⟨p, hp, ?_⟩
    have hnot : some p ∉ a.map Item.pro := fun hm =>
      hdis hm (by rw [← hp]; exact List.mem_map_of_mem _ hit)
    rw [hsame p hnot]
    exact hf
  · intro p c hc hn
    by_cases hm : some p ∈ a.map Item.pro
    · obtain ⟨it, hit, hpro⟩ := List.mem_map.mp hm
      obtain ⟨k, hk⟩ := List.mem_iff_get.mp hit
      obtain ⟨q, hq, hv⟩ := hres k.1 k.2
      rw [hk, hpro] at hq
      have hqp : p = q := Option.some.inj hq
      subst hqp
      rw [hv] at hc
      exact ⟨_, (Option.some.inj hc).symm⟩
    · have hnot : some p ∉ (a ++ b).map Item.pro := by
        rw [List.map_append, List.mem_append]
        exact fun hor => hor.elim hm hn
      rw [hsame p hm] at hc
      exact hoth p c hc hnot

theorem writeOnceOn_push (h : List (Promise R)) (a : List (Item I)) (x : I)
    (hw : WriteOnceOn h a) :
    WriteOnceOn (h ++ [Promise.fresh]) (a ++ [{ input := x, pro := some h.length }]) := by
  obtain ⟨hu, hoth⟩ := hw
  have hnew : some h.length ∉ a.map Item.pro := fun hm =>
    Nat.lt_irrefl _ (pro_lt_of_unresolved h a hu _ hm)
  refine ⟨⟨?_, ?_⟩, ?_⟩
  · rw [List.map_append, List.nodup_append]
    refine ⟨hu.1, by simp, ?_⟩
    intro o ho1 ho2
    simp only [List.map_cons, List.map_nil, List.mem_singleton] at ho2
    exact hnew (ho2 ▸ ho1)
  · intro it hit
    rcases List.mem_append.mp hit with hin | hin
    · obtain ⟨p, hp, hf⟩ := hu.2 it hin
      refine ⟨p, hp, ?_⟩
      have hlt : p < h.length :=
        pro_lt_of_unresolved h a hu p (by rw [← hp]; exact List.mem_map_of_mem _ hin)
      rw [List.getElem?_append_left hlt]
      exact hf
    · rw [List.mem_singleton] at hin
      subst hin
      exact ⟨h.length, rfl, by simp⟩
  · intro p c hc hn
    have hne : p ≠ h.length := by
      intro he
      apply hn
      rw [he, List.map_append]
      simp
    have hlt : p < h.length := by
      rcases Nat.lt_or_ge p (h.length + 1) with hl | hl
      · omega
      · rw [List.getElem?_eq_none (by simpa using hl)] at hc; cases hc
    rw [List.getElem?_append_left hlt] at hc
    apply hoth p c hc
    intro hm
    apply hn
    rw [List.map_append]
    exact List.mem_append_left _ hm

theorem get_items_and_wait_running (s : Instance R I M) (f : List (Item I)) (m : Int)
    (hrun : s.run_ = true) (hq : s.input_queue_ ≠ []) :
    get_items_and_wait s f m
      = some (true, s.input_queue_.take m.toNat,
          { s with input_queue_ := s.input_queue_.drop m.toNat }) := by
  have he : s.input_queue_.isEmpty = false := by
    cases hs : s.input_queue_ with
    | nil => exact absurd hs hq
    | cons a l => rfl
  simp [get_items_and_wait, hrun, he, fetchLoop_eq]

theorem get_items_and_wait_stopped (s : Instance R I M) (f : List (Item I)) (m : Int)
    (hrun : s.run_ = false) : get_items_and_wait s f m = some (false, f, s) := by
  simp [get_items_and_wait, hrun]

theorem get_items_and_wait_blocked (s : Instance R I M) (f : List (Item I)) (m : Int)
    (hrun : s.run_ = true) (hq : s.input_queue_ = []) : get_items_and_wait s f m = none := by
  simp [get_items_and_wait, hrun, hq]

theorem commitsLoop_spec (bound : Int) (xs : List I) :
    ∀ (i : Nat) (output : List Nat) (s : Instance R I M),
      (commitsLoop bound i xs output s).1
          = output ++ List.range' s.promises.length (xs.take (bound - i).toNat).length ∧
      (commitsLoop bound i xs output s).2
          = (xs.take (bound - i).toNat).foldl (fun t x => (commit t x).2) s ∧
      (commitsLoop bound i xs output s).2.input_queue_
          = s.input_queue_ ++ List.zipWith (fun x p => ({ input := x, pro := some p } : Item I))
              (xs.take (bound - i).toNat)
              (List.range' s.promises.length (xs.take (bound - i).toNat).length) ∧
      (commitsLoop bound i xs output s).2.promises
          = s.promises ++ List.replicate (xs.take (bound - i).toNat).length Promise.fresh := by
  induction xs with
  | nil => intro i output s; simp [commitsLoop]
  | cons x rest ih =>
    intro i output s
    by_cases hlt : (i : Int) < bound
    · obtain ⟨h1, h2, h3, h4⟩ := ih (i + 1) (output ++ [s.promises.length])
        { s with promises := s.promises ++ [Promise.fresh],
                 input_queue_ := s.input_queue_ ++ [{ input := x, pro := some s.promises.length }] }
      have hk : (bound - (i : Int)).toNat = (bound - ((i + 1 : Nat) : Int)).toNat + 1 := by
        omega
      simp only [commitsLoop, if_pos hlt]
      rw [hk, List.take_succ_cons]
      refine ⟨?_, ?_, ?_, ?_⟩
      · rw [h1]; simp [List.range'_succ]
      · rw [h2]; rfl
      · rw [h3]; simp [List.range'_succ]
      · rw [h4]; simp [List.replicate_succ]
    · have h0 : (bound - (i : Int)).toNat = 0 := by omega
      simp only [commitsLoop, if_neg hlt]
      rw [h0]
      simp

theorem commits_eq_foldl (s : Instance R I M) (xs : List I) :
    (commits s xs).2
      = (xs.take (toInt32 xs.length).toNat).foldl (fun t x => (commit t x).2) s := by
  have h := (commitsLoop_spec (toInt32 xs.length) xs 0 [] s).2.1
  simpa [commits] using h

theorem take_toInt32_of_lt (xs : List I) (h : xs.length < 2 ^ 31) :
    xs.take (toInt32 xs.length).toNat = xs := by
  rw [toInt32_of_lt _ h, Int.toNat_ofNat, List.take_length]

theorem foldl_commit_worker (xs : List I) :
    ∀ s : Instance R I M, (xs.foldl (fun t x => (commit t x).2) s).worker_ = s.worker_ := by
  induction xs with
  | nil => intro s; rfl
  | cons x rest ih => intro s; rw [List.foldl_cons, ih]; rfl

theorem commits_worker (s : Instance R I M) (xs : List I) :
    (commits s xs).2.worker_ = s.worker_ := by
  rw [commits_eq_foldl, foldl_commit_worker]

/-! ### Write-once resolution is kept by every operation -/

theorem writeOnce_init : WriteOnce (Instance.init : Instance R I M) := by
  refine ⟨⟨by simp [pending, inflightItems, Instance.init], ?_⟩, ?_⟩
  · intro it hit
    simp [pending, inflightItems, Instance.init] at hit
  · intro p c hc
    simp [Instance.init] at hc

theorem writeOnce_commit (s : Instance R I M) (x : I) (hw : WriteOnce s) :
    WriteOnce (commit s x).2 := by
  have h := writeOnceOn_push s.promises (pending s) x hw
  refine writeOnceOn_perm _ _ _ ?_ h
  show ((s.input_queue_ ++ inflightItems s) ++ [_]).Perm
    ((s.input_queue_ ++ [_]) ++ inflightItems s)
  rw [List.append_assoc, List.append_assoc]
  exact List.Perm.append_left _ List.perm_append_comm

theorem writeOnce_foldl_commit (xs : List I) :
    ∀ s : Instance R I M, WriteOnce s → WriteOnce (xs.foldl (fun t y => (commit t y).2) s) := by
  induction xs with
  | nil => intro s hw; exact hw
  | cons x rest ih => intro s hw; exact ih _ (writeOnce_commit s x hw)

theorem writeOnce_commits (s : Instance R I M) (xs : List I) (hw : WriteOnce s) :
    WriteOnce (commits s xs).2 := by
  rw [commits_eq_foldl]
  exact writeOnce_foldl_commit _ s hw

theorem writeOnce_stopDrain [Inhabited R] (s : Instance R I M) (hw : WriteOnce s) :
    WriteOnce (stopDrain s) := by
  have h := writeOnceOn_resolve ([] : List R) 0 s.promises s.input_queue_ (inflightItems s) hw
  rw [← drainLoop_heap s.input_queue_ 0 s.promises] at h
  show WriteOnceOn (drainLoop s.input_queue_ s.promises).2
    ((drainLoop s.input_queue_ s.promises).1 ++ inflightItems s)
  rw [drainLoop_queue, List.nil_append]
  exact h

theorem writeOnce_workerStep [Inhabited R] (fwd : M → List I → Stream → List R × M)
    (s s1 : Instance R I M) (hs : workerStep fwd s = some s1) (hw : WriteOnce s) :
    WriteOnce s1 := by
  unfold workerStep at hs
  cases hwk : s.worker_ with
  | none => rw [hwk] at hs; cases hs
  | some w =>
    rw [hwk] at hs
    have hpend : pending s = s.input_queue_ ++ inflightItems s := rfl
    cases w with
    | exited => cases hs
    | loop model =>
      have hin : inflightItems s = [] := by simp [inflightItems, hwk]
      cases hrun : s.run_ with
      | false =>
        rw [get_items_and_wait_stopped s [] _ hrun] at hs
        cases hs
        show WriteOnceOn s.promises (s.input_queue_ ++ [])
        rw [← hin]
        exact hw
      | true =>
        by_cases hq : s.input_queue_ = []
        · rw [get_items_and_wait_blocked s [] _ hrun hq] at hs
          cases hs
        · rw [get_items_and_wait_running s [] _ hrun hq] at hs
          cases hs
          show WriteOnceOn s.promises
            (s.input_queue_.drop s.max_items_processed_.toNat
              ++ s.input_queue_.take s.max_items_processed_.toNat)
          refine writeOnceOn_perm _ (pending s) _ ?_ hw
          rw [hpend, hin, List.append_nil]
          have h := List.take_append_drop s.max_items_processed_.toNat s.input_queue_
          exact (List.perm_append_comm.trans (List.Perm.of_eq h)).symm
    | inflight model items =>
      have hin : inflightItems s = items := by simp [inflightItems, hwk]
      cases hs
      show WriteOnceOn (deliverLoop _ 0 items s.promises) (s.input_queue_ ++ [])
      rw [List.append_nil]
      apply writeOnceOn_resolve
      refine writeOnceOn_perm _ (pending s) _ ?_ hw
      rw [hpend, hin]
      exact List.perm_append_comm

theorem writeOnce_join [Inhabited R] (fwd : M → List I → Stream → List R × M) :
    ∀ (fuel : Nat) (s s1 : Instance R I M), join fwd fuel s = some s1 → WriteOnce s →
      WriteOnce s1 := by
  intro fuel
  induction fuel with
  | zero =>
    intro s s1 hj hw
    unfold join at hj
    split at hj
    · cases hj; exact hw
    · cases hj
  | succ n ih =>
    intro s s1 hj hw
    unfold join at hj
    split at hj
    · cases hj; exact hw
    · cases hstep : workerStep fwd s with
      | none => rw [hstep] at hj; cases hj
      | some s2 =>
        rw [hstep] at hj
        exact ih s2 s1 hj (writeOnce_workerStep fwd s s2 hstep hw)

theorem writeOnce_set_worker (s : Instance R I M) (w : Option (WorkerThread M I))
    (hin : inflightItems s = []) (hw1 : inflightItems { s with worker_ := w } = [])
    (hw : WriteOnce s) : WriteOnce { s with worker_ := w } := by
  show WriteOnceOn s.promises (s.input_queue_ ++ inflightItems { s with worker_ := w })
  rw [hw1, ← hin]
  exact hw

/-! ### What `join` and `stop` return -/

theorem join_returned [Inhabited R] (fwd : M → List I → Stream → List R × M) (fuel : Nat)
    (s : Instance R I M) (hr : hasReturned s = true) : join fwd fuel s = some s := by
  cases fuel <;> simp [join, hr]

theorem join_loop_stopped [Inhabited R] (fwd : M → List I → Stream → List R × M) (fuel : Nat)
    (s : Instance R I M) (model : M) (hw : s.worker_ = some (.loop model))
    (hrun : s.run_ = false) :
    join fwd (fuel + 1) s = some { s with worker_ := some .exited, run_ := false } := by
  have hnr : hasReturned s = false := by simp [hasReturned, hw]
  have hstep : workerStep fwd s = some { s with worker_ := some .exited, run_ := false } := by
    simp only [workerStep, hw, get_items_and_wait_stopped s [] _ hrun]
  simp only [join, hnr, hstep]
  exact join_returned fwd fuel _ rfl

theorem join_inflight_stopped [Inhabited R] (fwd : M → List I → Stream → List R × M) (fuel : Nat)
    (s : Instance R I M) (model : M) (items : List (Item I))
    (hw : s.worker_ = some (.inflight model items)) (hrun : s.run_ = false) :
    join fwd (fuel + 2) s
      = some { (workerBody fwd s model items).2 with
                worker_ := some .exited, run_ := false } := by
  have hnr : hasReturned s = false := by simp [hasReturned, hw]
  have hstep : workerStep fwd s = some { (workerBody fwd s model items).2 with
      worker_ := some (.loop (workerBody fwd s model items).1) } := by
    simp only [workerStep, hw]
  simp only [join, hnr, hstep]
  exact join_loop_stopped fwd fuel
    { (workerBody fwd s model items).2 with
        worker_ := some (.loop (workerBody fwd s model items).1) }
    (workerBody fwd s model items).1 rfl hrun

theorem join_hasReturned [Inhabited R] (fwd : M → List I → Stream → List R × M) :
    ∀ (fuel : Nat) (s s1 : Instance R I M), join fwd fuel s = some s1 →
      hasReturned s1 = true := by
  intro fuel
  induction fuel with
  | zero =>
    intro s s1 hj
    unfold join at hj
    split at hj
    · cases hj; assumption
    · cases hj
  | succ n ih =>
    intro s s1 hj
    unfold join at hj
    split at hj
    · cases hj; assumption
    · cases hstep : workerStep fwd s with
      | none => rw [hstep] at hj; cases hj
      | some s2 => rw [hstep] at hj; exact ih s2 s1 hj

theorem inflightItems_of_returned (s : Instance R I M) (hr : hasReturned s = true) :
    inflightItems s = [] := by
  unfold hasReturned at hr
  unfold inflightItems
  split at hr <;> simp_all

theorem stop_worker_none [Inhabited R] (fwd : M → List I → Stream → List R × M) (fuel : Nat)
    (s s1 : Instance R I M) (hs : stop fwd fuel s = some s1) : s1.worker_ = none := by
  unfold stop at hs
  simp only at hs
  split at hs
  · cases hs; assumption
  · split at hs
    · cases hs
    · cases hs; rfl

theorem writeOnce_stop [Inhabited R] (fwd : M → List I → Stream → List R × M) (fuel : Nat)
    (s s1 : Instance R I M) (hs : stop fwd fuel s = some s1) (hw : WriteOnce s) :
    WriteOnce s1 := by
  have hd := writeOnce_stopDrain s hw
  unfold stop at hs
  simp only at hs
  split at hs
  · cases hs; exact hd
  · split at hs
    · cases hs
    · rename_i s2 hj
      cases hs
      have hr := join_hasReturned fwd fuel _ s2 hj
      exact writeOnce_set_worker s2 none (inflightItems_of_returned s2 hr) rfl
        (writeOnce_join fwd fuel _ s2 hj hd)

theorem writeOnce_start [Inhabited R] (fwd : M → List I → Stream → List R × M) (fuel : Nat)
    (loadmethod : Unit → Option M) (m : Int) (stream : Stream) (b : Bool)
    (s s1 : Instance R I M) (hs : start fwd fuel loadmethod m stream s = some (b, s1))
    (hw : WriteOnce s) : WriteOnce s1 := by
  unfold start at hs
  cases hst : stop fwd fuel s with
  | none => rw [hst] at hs; cases hs
  | some s2 =>
    rw [hst] at hs
    have h2 : WriteOnce s2 := writeOnce_stop fwd fuel s s2 hst hw
    have hn : s2.worker_ = none := stop_worker_none fwd fuel s s2 hst
    have hin : inflightItems s2 = [] := by simp [inflightItems, hn]
    have h3 : WriteOnce { s2 with stream_ := stream, max_items_processed_ := m } := by
      show WriteOnceOn s2.promises (s2.input_queue_ ++ inflightItems
        { s2 with stream_ := stream, max_items_processed_ := m })
      exact h2
    unfold workerEntry at hs
    cases hl : loadmethod () with
    | none =>
      rw [hl] at hs
      cases hs
      show WriteOnceOn s2.promises (s2.input_queue_ ++ [])
      rw [← hin]; exact h2
    | some model =>
      rw [hl] at hs
      cases hs
      show WriteOnceOn s2.promises (s2.input_queue_ ++ [])
      rw [← hin]; exact h2

theorem writeOnce_of_reachable [Inhabited R] (fwd : M → List I → Stream → List R × M)
    (s : Instance R I M) (hr : Reachable fwd s) : WriteOnce s := by
  induction hr with
  | init => exact writeOnce_init
  | by_commit s x _ ih => exact writeOnce_commit s x ih
  | by_commits s xs _ ih => exact writeOnce_commits s xs ih
  | by_start s fuel loadmethod m stream b s1 _ hs ih =>
    exact writeOnce_start fwd fuel loadmethod m stream b s s1 hs ih
  | by_worker s s1 _ hs ih => exact writeOnce_workerStep fwd s s1 hs ih
  | by_drain s _ ih => exact writeOnce_stopDrain s ih
  | by_join s _ he ih =>
    exact writeOnce_set_worker s none (by simp [inflightItems, he]) rfl ih
  | by_stop s fuel s1 _ hs ih => exact writeOnce_stop fwd fuel s s1 hs ih

theorem stop_of_returned [Inhabited R] (fwd : M → List I → Stream → List R × M) (fuel : Nat)
    (t : Instance R I M) (hr : hasReturned t = true) :
    stop fwd fuel t = some { stopDrain t with worker_ := none } := by
  have hj := join_returned fwd fuel (stopDrain t) hr
  unfold stop
  simp only [hj]
  cases hw : (stopDrain t).worker_ with
  | none =>
    have hw1 : t.worker_ = none := hw
    simp [stopDrain, hw1]
  | some w => rfl

theorem commit_then_stop [Inhabited R] (fwd : M → List I → Stream → List R × M) (fuel : Nat)
    (t : Instance R I M) (x : I) (hr : hasReturned t = true) (hq : t.input_queue_ = []) :
    ∃ s2, stop fwd fuel (commit t x).2 = some s2 ∧
      s2.promises[(commit t x).1]? = some { value := some default, sets := 1 } ∧
      s2.calls = t.calls := by
  refine ⟨_, stop_of_returned fwd fuel (commit t x).2 hr, ?_, rfl⟩
  show (drainLoop (t.input_queue_ ++ [{ input := x, pro := some t.promises.length }])
    (t.promises ++ [Promise.fresh])).2[t.promises.length]? = _
  rw [hq]
  simp only [List.nil_append, drainLoop]
  rw [setPromise_get_self _ _ _ Promise.fresh (by simp)]
  rfl

theorem stop_spec [Inhabited R] (fwd : M → List I → Stream → List R × M) (fuel : Nat)
    (s : Instance R I M) :
    ∃ s1, stop fwd (fuel + 2) s = some s1 ∧ s1.run_ = false ∧ s1.input_queue_ = [] ∧
      s1.worker_ = none ∧ s1.max_items_processed_ = s.max_items_processed_ ∧
      s1.stream_ = s.stream_ ∧
      (∃ ret : List R, s1.promises
        = deliverLoop ret 0 (inflightItems s) (deliverLoop [] 0 s.input_queue_ s.promises)) ∧
      ((∀ model items, s.worker_ ≠ some (.inflight model items)) → s1.calls = s.calls) := by
  have hq := drainLoop_queue s.input_queue_ s.promises
  have hh := drainLoop_heap s.input_queue_ 0 s.promises
  have hdw : (stopDrain s).worker_ = s.worker_ := rfl
  cases hw : s.worker_ with
  | none =>
    refine ⟨stopDrain s, ?_, rfl, hq, hw, rfl, rfl, ⟨[], ?_⟩, fun _ => rfl⟩
    · simp only [stop, hdw, hw]
    · simp only [inflightItems, hw, deliverLoop]
      exact hh
  | some w =>
    cases w with
    | exited =>
      have hj := join_returned fwd (fuel + 2) (stopDrain s)
        (by simp [hasReturned, hdw, hw])
      refine ⟨{ stopDrain s with worker_ := none }, ?_, rfl, hq, rfl, rfl, rfl,
        ⟨[], ?_⟩, fun _ => rfl⟩
      · simp only [stop, hdw, hw, hj]
      · simp only [inflightItems, hw, deliverLoop]
        exact hh
    | loop model =>
      have hj := join_loop_stopped fwd (fuel + 1) (stopDrain s) model
        (by rw [hdw, hw]) rfl
      refine ⟨{ stopDrain s with worker_ := none, run_ := false }, ?_, rfl, hq, rfl, rfl,
        rfl, ⟨[], ?_⟩, fun _ => rfl⟩
      · simp only [stop, hdw, hw, hj]
      · simp only [inflightItems, hw, deliverLoop]
        exact hh
    | inflight model items =>
      have hj := join_inflight_stopped fwd fuel (stopDrain s) model items
        (by rw [hdw, hw]) rfl
      refine ⟨{ (workerBody fwd (stopDrain s) model items).2 with
                  worker_ := none, run_ := false }, ?_, rfl, hq, rfl, rfl, rfl,
        ⟨(fwd model (items.map Item.input) s.stream_).1, ?_⟩, ?_⟩
      · simp only [stop, hdw, hw, hj]
      · simp only [inflightItems, hw]
        rw [← hh]
        rfl
      · intro hno
        exact absurd rfl (hno model items)

theorem start_spec [Inhabited R] (fwd : M → List I → Stream → List R × M) (fuel : Nat)
    (loadmethod : Unit → Option M) (m : Int) (stream : Stream) (s s1 : Instance R I M)
    (hs : stop fwd fuel s = some s1) :
    start fwd fuel loadmethod m stream s
      = some (workerEntry loadmethod
          { s1 with stream_ := stream, max_items_processed_ := m }) := by
  simp only [start, hs]

/-! ### The worker loop on a queue of `n` items -/

end lemmas

/-! ## The claims -/

section claims

variable {R I M : Type}

/-- C1 as amended. Result delivery in the worker loop: with a batch `items` in flight
whose promises are unresolved, and for every result sequence `ret` of fewer than 2^31
entries returned by `forwards` on the inputs of the batch, the worker move resolves, for
every position `i` of the batch, the promise of item `i` with `ret[i]` when `i < |ret|`
and with `Result()` otherwise, each exactly once; no other promise changes, so exactly
the handles of the batch are resolved, and a short `ret` does not fail or skip an item. -/
theorem worker_delivers_batch [Inhabited R]
    (fwd : M → List I → Stream → List R × M) (s : Instance R I M)
    (model : M) (items : List (Item I))
    (hw : s.worker_ = some (.inflight model items))
    (hu : Unresolved s.promises items)
    (hret : (fwd model (items.map Item.input) s.stream_).1.length < 2 ^ 31) :
    ∃ s1, workerStep fwd s = some s1 ∧
      s1.calls = s.calls ++
        [(items.map Item.input, (fwd model (items.map Item.input) s.stream_).1)] ∧
      s1.promises.length = s.promises.length ∧
      (∀ (i : Nat) (hi : i < items.length), ∃ p, (items.get ⟨i, hi⟩).pro = some p ∧
        s1.promises[p]? = some
          { value := some
              (if hr : i < (fwd model (items.map Item.input) s.stream_).1.length
                then (fwd model (items.map Item.input) s.stream_).1.get ⟨i, hr⟩
                else default),
            sets := 1 }) ∧
      (∀ p : Nat, some p ∉ items.map Item.pro → s1.promises[p]? = s.promises[p]?) ∧
      s1.input_queue_ = s.input_queue_ ∧ inflightItems s1 = [] := by
  obtain ⟨hlen, hres, hoth⟩ := deliverLoop_spec
    (fwd model (items.map Item.input) s.stream_).1 items 0 s.promises hu
  refine ⟨{ (workerBody fwd s model items).2 with
              worker_ := some (.loop (workerBody fwd s model items).1) },
    by simp only [workerStep, hw], rfl, hlen, ?_, hoth, rfl, rfl⟩
  intro i hi
  obtain ⟨p, hp, hv⟩ := hres i hi
  refine ⟨p, hp, ?_⟩
  rw [Nat.zero_add, delivered_of_lt _ _ hret] at hv
  exact hv

/-- Witness of C1 as amended: a batch of two items and a model that returns one result;
the second item is resolved with the default result. -/
theorem worker_delivers_batch_witness :
    Unresolved exInflight.promises [⟨10, some 0⟩, ⟨11, some 1⟩] ∧
    (shortForwards 0 [10, 11] 0).1.length < 2 ^ 31 ∧
    ∃ s1, workerStep shortForwards exInflight = some s1 ∧
      s1.promises = [⟨some 110, 1⟩, ⟨some 0, 1⟩] := by
  have hu : Unresolved exInflight.promises [⟨10, some 0⟩, ⟨11, some 1⟩] := by
    refine ⟨by decide, ?_⟩
    intro it hit
    simp only [List.mem_cons, List.mem_singleton, List.not_mem_nil, or_false] at hit
    rcases hit with rfl | rfl
    · exact ⟨0, rfl, rfl⟩
    · exact ⟨1, rfl, rfl⟩
  have hlt : (shortForwards 0 [10, 11] 0).1.length < 2 ^ 31 := by decide
  refine ⟨hu, hlt, ?_⟩
  obtain ⟨s1, h1, _, _, _, _, _, _⟩ :=
    worker_delivers_batch shortForwards exInflight 0 [⟨10, some 0⟩, ⟨11, some 1⟩] rfl hu hlt
  refine ⟨s1, h1, ?_⟩
  have h2 : workerStep shortForwards exInflight = some
      { exInflight with worker_ := some (.loop 0),
                        promises := [⟨some 110, 1⟩, ⟨some 0, 1⟩],
                        calls := [([10, 11], [110])] } := by decide
  rw [h2] at h1
  cases h1
  rfl

/-- C1, counterexample. A batch of one item and a model that returns 2^31 results, all 5:
`(int)ret.size()` is -2^31, the test `0 < (int)ret.size()` of line 115 fails, and the
item is resolved with `Result()`, here 0, although `ret[0] = 5` exists. -/
theorem delivery_drops_oversized_result :
    (hugeForwards 0 [10] 0).1.length = 2 ^ 31 ∧
      (hugeForwards 0 [10] 0).1[0]? = some 5 ∧
      ∃ s1, workerStep hugeForwards exInflightOne = some s1 ∧
        s1.promises[0]? = some { value := some 0, sets := 1 } := by
  have hlen : (hugeForwards 0 [10] 0).1.length = 2 ^ 31 := List.length_replicate _ _
  have hu : Unresolved exInflightOne.promises [⟨10, some 0⟩] := by
    refine ⟨List.nodup_singleton _, ?_⟩
    intro it hit
    rw [List.mem_singleton] at hit
    subst hit
    exact ⟨0, rfl, rfl⟩
  obtain ⟨_, hres, _⟩ := deliverLoop_spec (hugeForwards 0 [10] 0).1 [⟨10, some 0⟩] 0
    exInflightOne.promises hu
  obtain ⟨p, hp, hv⟩ := hres 0 (Nat.zero_lt_one)
  have hp0 : p = 0 := (Option.some.inj hp).symm
  subst hp0
  have hd : delivered (hugeForwards 0 [10] 0).1 (0 + 0) = 0 := by
    unfold delivered
    rw [hlen, toInt32_two_pow_31, if_neg (by norm_num)]
    rfl
  rw [hd] at hv
  refine ⟨hlen, ?_, _, rfl, hv⟩
  show (List.replicate (2 ^ 31) 5)[0]? = some 5
  rw [List.getElem?_replicate, if_pos (by norm_num)]

/-- C2. Batch fetch: on a running instance with `max_size = m ≥ 1` and a non-empty queue
`q`, `get_items_and_wait` returns true with the first `min(m, |q|)` items of `q` as the
batch and leaves the rest of `q` queued, in order (batch ++ rest = q); the batch has at
least one and at most `m` items, and it is the batch the worker passes to `forwards` in
its next loop body. -/
theorem fetch_takes_queue_prefix [Inhabited R] (s : Instance R I M) (f : List (Item I)) (m : Int)
    (hrun : s.run_ = true) (hm : 1 ≤ m) (hq : s.input_queue_ ≠ []) :
    ∃ batch rest, get_items_and_wait s f m
        = some (true, batch, { s with input_queue_ := rest }) ∧
      batch = s.input_queue_.take (min m.toNat s.input_queue_.length) ∧
      rest = s.input_queue_.drop (min m.toNat s.input_queue_.length) ∧
      batch ++ rest = s.input_queue_ ∧
      1 ≤ batch.length ∧ (batch.length : Int) ≤ m ∧
      ∀ (fwd : M → List I → Stream → List R × M) (model : M),
        s.worker_ = some (.loop model) → s.max_items_processed_ = m →
        ∃ s1 s2, workerStep fwd s = some s1 ∧ inflightItems s1 = batch ∧
          s1.input_queue_ = rest ∧ workerStep fwd s1 = some s2 ∧
          s2.calls = s.calls ++
            [(batch.map Item.input, (fwd model (batch.map Item.input) s.stream_).1)] := by
  have hlen : 0 < s.input_queue_.length := List.length_pos.mpr hq
  have htake : s.input_queue_.take (min m.toNat s.input_queue_.length)
      = s.input_queue_.take m.toNat := by
    rcases Nat.le_total m.toNat s.input_queue_.length with h | h
    · rw [Nat.min_eq_left h]
    · rw [Nat.min_eq_right h, List.take_of_length_le h, List.take_length]
  have hdrop : s.input_queue_.drop (min m.toNat s.input_queue_.length)
      = s.input_queue_.drop m.toNat := by
    rcases Nat.le_total m.toNat s.input_queue_.length with h | h
    · rw [Nat.min_eq_left h]
    · rw [Nat.min_eq_right h, List.drop_of_length_le h, List.drop_length]
  refine ⟨_, _, ?_, rfl, rfl, List.take_append_drop _ _, ?_, ?_, ?_⟩
  · rw [htake, hdrop]
    exact get_items_and_wait_running s f m hrun hq
  · rw [List.length_take]; omega
  · rw [List.length_take]; omega
  · intro fwd model hw hmax
    have hg := get_items_and_wait_running s [] m hrun hq
    refine ⟨{ s with input_queue_ := s.input_queue_.drop m.toNat,
                     worker_ := some (.inflight model (s.input_queue_.take m.toNat)) },
      _, ?_, ?_, ?_, rfl, ?_⟩
    · simp only [workerStep, hw, hmax, hg]
    · rw [htake]; rfl
    · rw [hdrop]
    · rw [htake]; rfl

/-- Witness of C2: batch size 4, three items queued; all three are fetched. -/
theorem fetch_takes_queue_prefix_witness :
    ∃ batch rest, get_items_and_wait exRunning [] 4
        = some (true, batch, { exRunning with input_queue_ := rest }) ∧
      batch.length = 3 ∧ rest = [] := by
  obtain ⟨batch, rest, h1, h2, h3, _⟩ :=
    fetch_takes_queue_prefix exRunning [] 4 rfl (by decide) (by decide)
  refine ⟨batch, rest, h1, ?_, ?_⟩
  · rw [h2]; rfl
  · rw [h3]; rfl

/-- C5 as amended. Enqueue order: `commit x` appends one item carrying `x`, with a new
unresolved promise, at the tail of the queue and returns the handle of that promise,
leaving the earlier entries in place; for every input list `xs` of fewer than 2^31
items, `commits xs` returns `|xs|` handles, appends the items of `xs` as one run in input
order, item `i` carrying `xs[i]` and the promise of handle `i`, and leaves the instance
in the state that `commit xs[0]`, `commit xs[1]`, ... in order produce. -/
theorem commit_appends_in_order (s : Instance R I M) (x : I) (xs : List I)
    (hlen : xs.length < 2 ^ 31) :
    (commit s x).2.input_queue_
        = s.input_queue_ ++ [{ input := x, pro := some (commit s x).1 }] ∧
      (commit s x).2.promises = s.promises ++ [Promise.fresh] ∧
      (commit s x).2.promises[(commit s x).1]? = some Promise.fresh ∧
      (commits s xs).1.length = xs.length ∧
      (commits s xs).1 = List.range' s.promises.length xs.length ∧
      (commits s xs).2.input_queue_
        = s.input_queue_ ++ List.zipWith (fun y p => ({ input := y, pro := some p } : Item I))
            xs (commits s xs).1 ∧
      (commits s xs).2.promises = s.promises ++ List.replicate xs.length Promise.fresh ∧
      (commits s xs).2 = xs.foldl (fun t y => (commit t y).2) s := by
  obtain ⟨h1, h2, h3, h4⟩ := commitsLoop_spec (toInt32 xs.length) xs 0 [] s
  have hk : (toInt32 xs.length - ((0 : Nat) : Int)).toNat = (toInt32 xs.length).toNat := by
    simp
  rw [hk, take_toInt32_of_lt xs hlen] at h1 h2 h3 h4
  rw [List.nil_append] at h1
  refine ⟨rfl, rfl, ?_, ?_, h1, ?_, h4, h2⟩
  · simp [commit]
  · show (commitsLoop (toInt32 xs.length) 0 xs [] s).1.length = xs.length
    rw [h1, List.length_range']
  · show (commitsLoop (toInt32 xs.length) 0 xs [] s).2.input_queue_
      = _ ++ List.zipWith _ xs (commitsLoop (toInt32 xs.length) 0 xs [] s).1
    rw [h3, h1]

/-- Witness of C5 as amended: `commits` of three inputs on a running instance. -/
theorem commit_appends_in_order_witness :
    [20, 21, 22].length < 2 ^ 31 ∧ (commits exStarted [20, 21, 22]).1 = [0, 1, 2] ∧
      (commits exStarted [20, 21, 22]).2.input_queue_
        = [⟨20, some 0⟩, ⟨21, some 1⟩, ⟨22, some 2⟩] := by
  have hlt : [20, 21, 22].length < 2 ^ 31 := by decide
  obtain ⟨_, _, _, _, h5, h6, _, _⟩ := commit_appends_in_order exStarted 7 [20, 21, 22] hlt
  refine ⟨hlt, ?_, ?_⟩
  · rw [h5]; rfl
  · rw [h6, h5]; rfl

/-- C5, counterexample. For a list of 2^31 inputs `(int)inputs.size()` is -2^31, the loop
of line 69 is not entered, and `commits` returns no handle and queues nothing. -/
theorem commits_drops_oversized_input :
    (List.replicate (2 ^ 31) 7).length = 2 ^ 31 ∧
      (commits (Instance.init : Instance Nat Nat Nat) (List.replicate (2 ^ 31) 7)).1 = [] ∧
      (commits (Instance.init : Instance Nat Nat Nat) (List.replicate (2 ^ 31) 7)).2
        = Instance.init := by
  have hlen : (List.replicate (2 ^ 31) 7).length = 2 ^ 31 := List.length_replicate _ _
  obtain ⟨h1, h2, _, _⟩ := commitsLoop_spec (toInt32 (List.replicate (2 ^ 31) 7).length)
    (List.replicate (2 ^ 31) 7) 0 [] (Instance.init : Instance Nat Nat Nat)
  have hk : (toInt32 (List.replicate (2 ^ 31) 7).length - ((0 : Nat) : Int)).toNat = 0 := by
    rw [hlen, toInt32_two_pow_31]
    norm_num
  rw [hk, List.take_zero] at h1 h2
  exact ⟨hlen, h1, h2⟩

/-- C10 as amended. When the wait in `get_items_and_wait` ends, the function returns false,
fetching nothing and leaving the queue and `fetch_items` as they are, exactly when `run_`
has been cleared, whether or not the queue is empty; when `run_` is set (the queue is then
non-empty) it returns true with the first `max_size` items of the queue, or all of them
when there are fewer, and the wait does not end while `run_` is set and the queue is
empty. -/
theorem get_items_and_wait_exit_condition (s : Instance R I M) (f : List (Item I))
    (m : Int) :
    (get_items_and_wait s f m = some (false, f, s) ↔ s.run_ = false) ∧
      ((∃ batch s1, get_items_and_wait s f m = some (false, batch, s1)) ↔ s.run_ = false) ∧
      (get_items_and_wait s f m = none ↔ (s.run_ = true ∧ s.input_queue_ = [])) ∧
      (get_items_and_wait s f m
          = some (true, s.input_queue_.take m.toNat,
              { s with input_queue_ := s.input_queue_.drop m.toNat })
        ↔ (s.run_ = true ∧ s.input_queue_ ≠ [])) := by
  cases hrun : s.run_ with
  | false =>
    have h := get_items_and_wait_stopped s f m hrun
    rw [h]
    simp
  | true =>
    by_cases hq : s.input_queue_ = []
    · have h := get_items_and_wait_blocked s f m hrun hq
      rw [h]
      simp [hq]
    · have h := get_items_and_wait_running s f m hrun hq
      rw [h]
      simp [hq, hrun]

/-- C10, counterexample. After `start` on a new object, the first half of `stop()` and a
`commit(7)`, the worker wakes with `run_` cleared and one item queued: it returns false
and fetches nothing, although the queue is not empty, and its thread exits with the item
still queued and unresolved. -/
theorem get_items_and_wait_exits_with_queued_item :
    start counterForwards 2 loadCounter 4 0 (Instance.init) = some (true, exStarted) ∧
      (commit (stopDrain exStarted) 7).2 = exStopping ∧
      exStopping.input_queue_ ≠ [] ∧
      get_items_and_wait exStopping [] exStopping.max_items_processed_
        = some (false, [], exStopping) ∧
      workerStep counterForwards exStopping
        = some { exStopping with worker_ := some .exited } ∧
      ¬ (∀ (s : Instance Nat Nat Nat) (f : List (Item Nat)) (m : Int),
          get_items_and_wait s f m ≠ none →
          ((∃ batch s1, get_items_and_wait s f m = some (false, batch, s1))
            ↔ (s.run_ = false ∧ s.input_queue_ = []))) := by
  refine ⟨rfl, rfl, by decide, rfl, rfl, ?_⟩
  intro h
  have h1 := (h exStopping [] 4 (by decide)).mp ⟨[], exStopping, rfl⟩
  exact absurd h1.2 (by decide)

/-- C6. Write-once resolution: in every state reachable from a new dispatcher by `commit`,
`commits`, `start`, worker fetch, worker delivery, the drain of `stop` (and its join),
the queued and in-flight items carry pairwise distinct promises (no item is both queued
and in flight, none twice), each of them unresolved and never set; every other promise
that was issued is resolved and was set exactly once; no promise was set twice. -/
theorem reachable_write_once [Inhabited R] (fwd : M → List I → Stream → List R × M)
    (s : Instance R I M) (hr : Reachable fwd s) :
    ((s.input_queue_ ++ inflightItems s).map Item.pro).Nodup ∧
      (∀ it ∈ s.input_queue_ ++ inflightItems s, ∃ p, it.pro = some p ∧
        s.promises[p]? = some { value := none, sets := 0 }) ∧
      (∀ (p : Nat) (c : Promise R), s.promises[p]? = some c →
        some p ∉ (s.input_queue_ ++ inflightItems s).map Item.pro →
        ∃ v : R, c = { value := some v, sets := 1 }) ∧
      (∀ (p : Nat) (c : Promise R), s.promises[p]? = some c → c.sets ≤ 1) := by
  have hw := writeOnce_of_reachable fwd s hr
  refine ⟨hw.1.1, hw.1.2, hw.2, ?_⟩
  intro p c hc
  by_cases hm : some p ∈ (pending s).map Item.pro
  · obtain ⟨it, hit, hpro⟩ := List.mem_map.mp hm
    obtain ⟨q, hq1, hq2⟩ := hw.1.2 it hit
    rw [hq1] at hpro
    have hqp : q = p := Option.some.inj hpro
    subst hqp
    rw [hc] at hq2
    have hcf : c = Promise.fresh := Option.some.inj hq2
    rw [hcf]
    exact Nat.zero_le 1
  · obtain ⟨v, hv⟩ := hw.2 p c hc hm
    rw [hv]

/-- Witness of C6: the state after `start`, two `commit`s, a fetch and the delivery. -/
theorem reachable_write_once_witness :
    Reachable counterForwards
        { exStarted with promises := [⟨some 0, 1⟩, ⟨some 1, 1⟩],
                         calls := [([5, 6], [0, 1])], worker_ := some (.loop 2) } ∧
      ∀ (p : Nat) (c : Promise Nat),
        ([⟨some 0, 1⟩, ⟨some 1, 1⟩] : List (Promise Nat))[p]? = some c → c.sets ≤ 1 := by
  have hr : Reachable counterForwards
      { exStarted with promises := [⟨some 0, 1⟩, ⟨some 1, 1⟩],
                       calls := [([5, 6], [0, 1])], worker_ := some (.loop 2) } :=
    Reachable.by_worker _ _
      (Reachable.by_worker (commit (commit exStarted 5).2 6).2 _
        (Reachable.by_commit _ 6
          (Reachable.by_commit exStarted 5
            (Reachable.by_start Instance.init 2 loadCounter 4 0 true exStarted
              Reachable.init rfl)))
        rfl)
      rfl
  exact ⟨hr, (reachable_write_once counterForwards _ hr).2.2.2⟩

/-- C7. Load-failure path: with a loader that returns the null pointer, `start` returns
false, `run_` is false afterwards, the worker thread has returned without ever calling
`get_items_and_wait` or `forwards` (it makes no move, whatever is submitted afterwards,
and no call is logged beyond those of the `stop()` inside `start`); a `commit` made
afterwards returns a handle whose item sits unresolved in the queue, and a following
`stop()`, or a following `start` with a failing loader, resolves that handle with
`Result()`. -/
theorem failed_load_path [Inhabited R]
    (fwd : M → List I → Stream → List R × M) (s : Instance R I M)
    (fuel : Nat) (hf : 2 ≤ fuel) (loadmethod loadmethod2 : Unit → Option M)
    (hl : loadmethod () = none) (hl2 : loadmethod2 () = none)
    (m m2 : Int) (stream stream2 : Stream) (x : I) :
    ∃ s0 s1, stop fwd fuel s = some s0 ∧
      start fwd fuel loadmethod m stream s = some (false, s1) ∧
      s1.run_ = false ∧ s1.worker_ = some .exited ∧ s1.input_queue_ = [] ∧
      s1.calls = s0.calls ∧
      ((∀ model items, s.worker_ ≠ some (.inflight model items)) → s1.calls = s.calls) ∧
      workerStep fwd s1 = none ∧
      (∀ xs : List I, workerStep fwd (commits s1 xs).2 = none) ∧
      (commit s1 x).2.input_queue_ = [{ input := x, pro := some (commit s1 x).1 }] ∧
      (commit s1 x).2.promises[(commit s1 x).1]? = some { value := none, sets := 0 } ∧
      workerStep fwd (commit s1 x).2 = none ∧
      (∃ s2, stop fwd fuel (commit s1 x).2 = some s2 ∧
        s2.promises[(commit s1 x).1]? = some { value := some default, sets := 1 } ∧
        s2.calls = s1.calls) ∧
      (∃ s3, start fwd fuel loadmethod2 m2 stream2 (commit s1 x).2 = some (false, s3) ∧
        s3.promises[(commit s1 x).1]? = some { value := some default, sets := 1 } ∧
        s3.calls = s1.calls) := by
  obtain ⟨n, rfl⟩ : ∃ n, fuel = n + 2 := ⟨fuel - 2, by omega⟩
  obtain ⟨s0, hs0, hrun0, hq0, _, _, _, _, hcalls0⟩ := stop_spec fwd n s
  have hst := start_spec fwd (n + 2) loadmethod m stream s s0 hs0
  simp only [workerEntry, hl] at hst
  obtain ⟨s1, hs1⟩ : ∃ s1 : Instance R I M, s1
      = { s0 with stream_ := stream, max_items_processed_ := m, worker_ := some .exited } :=
    ⟨_, rfl⟩
  rw [← hs1] at hst
  have hrun1 : s1.run_ = false := by rw [hs1]; exact hrun0
  have hwk1 : s1.worker_ = some .exited := by rw [hs1]
  have hq1 : s1.input_queue_ = [] := by rw [hs1]; exact hq0
  have hc1 : s1.calls = s0.calls := by rw [hs1]
  have hret1 : hasReturned s1 = true := by simp [hasReturned, hwk1]
  have hstep1 : workerStep fwd s1 = none := by simp [workerStep, hwk1]
  obtain ⟨s2, hs2, hv2, hc2⟩ := commit_then_stop fwd (n + 2) s1 x hret1 hq1
  refine ⟨s0, s1, hs0, hst, hrun1, hwk1, hq1, hc1, fun hno => hc1.trans (hcalls0 hno),
    hstep1, ?_, ?_, ?_, ?_, ⟨s2, hs2, hv2, hc2⟩, ?_⟩
  · intro xs
    have hwx : (commits s1 xs).2.worker_ = some .exited := by
      rw [← hwk1]; exact commits_worker s1 xs
    simp [workerStep, hwx]
  · show s1.input_queue_ ++ [_] = [_]
    rw [hq1]; rfl
  · show (s1.promises ++ [Promise.fresh])[s1.promises.length]? = _
    simp [Promise.fresh]
  · show workerStep fwd { s1 with promises := _, input_queue_ := _ } = none
    simp [workerStep, hwk1]
  · have hst2 := start_spec fwd (n + 2) loadmethod2 m2 stream2 _ s2 hs2
    simp only [workerEntry, hl2] at hst2
    exact ⟨_, hst2, hv2, hc2⟩

/-- Witness of C7: a failing loader on a new object, then `commit(7)`. -/
theorem failed_load_path_witness :
    2 ≤ 2 ∧ loadNothing () = none ∧
    ∃ s1, start counterForwards 2 loadNothing 4 0 (Instance.init) = some (false, s1) ∧
      s1.run_ = false ∧
      ∃ s2, stop counterForwards 2 (commit s1 7).2 = some s2 ∧
        s2.promises[(commit s1 7).1]? = some { value := some 0, sets := 1 } := by
  refine ⟨le_refl 2, rfl, ?_⟩
  obtain ⟨_, s1, _, h1, h2, _, _, _, _, _, _, _, _, _, ⟨s2, h3, h4, _⟩, _⟩ :=
    failed_load_path counterForwards (Instance.init) 2 (le_refl 2) loadNothing loadNothing
      rfl rfl 4 4 0 0 7
  exact ⟨s1, h1, h2, s2, h3, h4⟩

/-- C8 as amended. `start` does not validate `max_items_processed`: for a value `m ≤ 0`
and a loader that succeeds, `start` returns true, the worker runs, and `m` is stored as
given (neither rejected nor clamped to 1); every fetch with that size on a running
instance with a non-empty queue then returns true with an empty batch and leaves the
instance, its queue included, as it is, so the worker of such an instance holds an empty
batch after its fetch. (For `m ≥ 1` the batch is never empty: C2.) -/
theorem start_keeps_nonpositive_batch_size [Inhabited R]
    (fwd : M → List I → Stream → List R × M)
    (s : Instance R I M) (fuel : Nat) (hf : 2 ≤ fuel) (loadmethod : Unit → Option M)
    (model : M) (hl : loadmethod () = some model) (m : Int) (hm : m ≤ 0)
    (stream : Stream) :
    ∃ s1, start fwd fuel loadmethod m stream s = some (true, s1) ∧
      s1.run_ = true ∧ s1.worker_ = some (.loop model) ∧ s1.max_items_processed_ = m ∧
      (∀ (t : Instance R I M) (f : List (Item I)), t.run_ = true → t.input_queue_ ≠ [] →
        get_items_and_wait t f m = some (true, [], t)) ∧
      (∀ (t : Instance R I M) (mdl : M), t.worker_ = some (.loop mdl) → t.run_ = true →
        t.max_items_processed_ = m → t.input_queue_ ≠ [] →
        workerStep fwd t = some { t with worker_ := some (.inflight mdl []) }) := by
  obtain ⟨n, rfl⟩ : ∃ n, fuel = n + 2 := ⟨fuel - 2, by omega⟩
  obtain ⟨s0, hs0, _⟩ := stop_spec fwd n s
  have hst := start_spec fwd (n + 2) loadmethod m stream s s0 hs0
  simp only [workerEntry, hl] at hst
  have h0 : m.toNat = 0 := by omega
  have hfetch : ∀ (t : Instance R I M) (f : List (Item I)), t.run_ = true →
      t.input_queue_ ≠ [] → get_items_and_wait t f m = some (true, [], t) := by
    intro t f hrun hq
    rw [get_items_and_wait_running t f m hrun hq, h0]
    rfl
  refine ⟨_, hst, rfl, rfl, rfl, hfetch, ?_⟩
  intro t mdl hw hrun hmax hq
  simp only [workerStep, hw, hmax, hfetch t [] hrun hq]

/-- Witness of C8 as amended: batch size `-1`. -/
theorem start_keeps_nonpositive_batch_size_witness :
    2 ≤ 2 ∧ loadCounter () = some 0 ∧ (-1 : Int) ≤ 0 ∧
    ∃ s1, start counterForwards 2 loadCounter (-1) 0 (Instance.init) = some (true, s1) ∧
      s1.max_items_processed_ = -1 := by
  refine ⟨le_refl 2, rfl, by decide, ?_⟩
  obtain ⟨s1, h1, _, _, h4, _, _⟩ :=
    start_keeps_nonpositive_batch_size counterForwards (Instance.init) 2 (le_refl 2)
      loadCounter 0 rfl (-1) (by decide) 0
  exact ⟨s1, h1, h4⟩

/-- C8, counterexample. `start(loadCounter, 0)` on a new object returns true with
`max_items_processed_ = 0` (not rejected, not clamped); after `commit(7)` the running
instance has one item queued, and the fetch returns true with an empty batch and the
queue unchanged; the worker then calls `forwards` on the empty batch and is back at the
loop head with the item still queued and unresolved. -/
theorem start_accepts_zero_batch_size :
    start counterForwards 2 loadCounter 0 0 (Instance.init)
        = some (true, { exStarted with max_items_processed_ := 0 }) ∧
      (commit { exStarted with max_items_processed_ := 0 } 7).2
        = { exStarted with max_items_processed_ := 0, input_queue_ := [⟨7, some 0⟩],
                           promises := [Promise.fresh] } ∧
      get_items_and_wait
          { exStarted with max_items_processed_ := 0, input_queue_ := [⟨7, some 0⟩],
                           promises := [Promise.fresh] } [] 0
        = some (true, [],
          { exStarted with max_items_processed_ := 0, input_queue_ := [⟨7, some 0⟩],
                           promises := [Promise.fresh] }) ∧
      ((workerStep counterForwards
          { exStarted with max_items_processed_ := 0, input_queue_ := [⟨7, some 0⟩],
                           promises := [Promise.fresh] }).bind
        (workerStep counterForwards))
        = some { exStarted with max_items_processed_ := 0, input_queue_ := [⟨7, some 0⟩],
                                promises := [Promise.fresh], calls := [([], [])] } :=
  ⟨rfl, rfl, rfl, rfl⟩

/-- C9 as amended. With a loader that returns the null pointer, `start` returns false and
leaves no worker running (`run_` is false, the thread has returned), but
`max_items_processed_` and `stream_` hold the values passed to the failed call: they are
assigned before the loader runs and are not rolled back. -/
theorem failed_start_keeps_new_configuration [Inhabited R]
    (fwd : M → List I → Stream → List R × M)
    (s : Instance R I M) (fuel : Nat) (hf : 2 ≤ fuel) (loadmethod : Unit → Option M)
    (hl : loadmethod () = none) (m : Int) (stream : Stream) :
    ∃ s1, start fwd fuel loadmethod m stream s = some (false, s1) ∧
      s1.max_items_processed_ = m ∧ s1.stream_ = stream ∧
      s1.run_ = false ∧ s1.worker_ = some .exited ∧ workerStep fwd s1 = none := by
  obtain ⟨n, rfl⟩ : ∃ n, fuel = n + 2 := ⟨fuel - 2, by omega⟩
  obtain ⟨s0, hs0, hrun0, _⟩ := stop_spec fwd n s
  have hst := start_spec fwd (n + 2) loadmethod m stream s s0 hs0
  simp only [workerEntry, hl] at hst
  exact ⟨_, hst, rfl, rfl, hrun0, rfl, rfl⟩

/-- Witness of C9 as amended: a failing loader with batch size 4 and stream 7. -/
theorem failed_start_keeps_new_configuration_witness :
    2 ≤ 2 ∧ loadNothing () = none ∧
    ∃ s1, start counterForwards 2 loadNothing 4 7 (Instance.init) = some (false, s1) ∧
      s1.max_items_processed_ = 4 ∧ s1.stream_ = 7 := by
  refine ⟨le_refl 2, rfl, ?_⟩
  obtain ⟨s1, h1, h2, h3, _⟩ :=
    failed_start_keeps_new_configuration counterForwards (Instance.init) 2 (le_refl 2)
      loadNothing rfl 4 7
  exact ⟨s1, h1, h2, h3⟩

/-- C9, counterexample. On a new object (`max_items_processed_ = 0`, `stream_ = nullptr`) a
`start` with a failing loader, batch size 4 and stream 7 returns false and leaves
`max_items_processed_ = 4` and `stream_ = 7`, not the values from before the call. -/
theorem failed_start_overwrites_configuration :
    (Instance.init : Instance Nat Nat Nat).max_items_processed_ = 0 ∧
      (Instance.init : Instance Nat Nat Nat).stream_ = 0 ∧
      start counterForwards 2 loadNothing 4 7 (Instance.init)
        = some (false, { (Instance.init : Instance Nat Nat Nat) with
            max_items_processed_ := 4, stream_ := 7, worker_ := some .exited }) ∧
      (4 : Int) ≠ 0 ∧ (7 : Stream) ≠ 0 :=
  ⟨rfl, rfl, rfl, by decide, by decide⟩

end claims

end cpm
